import Mathlib

/-!
Shallow embedding of the wheel-of-fortune server core (`src/server.js`).

The JSON API layer of `server.js` keeps an in-memory object `wheels`
mapping short identifiers to wheel records `{ id, options, results }`.
The four operations modelled here are the four API routes of `handleApi`:
create (`POST /api/wheels`), describe (`GET /api/wheel/:id`),
list results (`GET /api/wheel/:id/results`) and spin
(`POST /api/wheel/:id/spin`).

Modelling decisions:
* JS numbers are modelled by `ℚ` (the claims are about exact arithmetic
  behaviour of the walk, not floating point rounding).
* `Math.random()` draws and `Date.now()` timestamps are passed in as
  explicit parameters (`rand : ℚ`, `now : ℤ`); the id generator
  `generateId` is passed as a function `gen : ℕ → String` giving the
  candidate produced by the i-th call.
* The global mutable `wheels` object becomes an explicit association
  list `Registry` threaded through the mutating operations, which
  return the new registry next to the HTTP payload.
* A submitted JSON option is a `RawOption`: `label = none` models a
  non-string `opt.label` (the `typeof` check then yields `''`), and
  `weight = none` models an `opt.weight` whose `Number(...)` coercion
  is not finite (`NaN` or `±Infinity`); `weight = some q` models a
  finite coerced value `q`.
-/

namespace WheelApp

/-- A stored wheel option: trimmed label and positive numeric weight
(`options.push({ label, weight })`, server.js line 134). -/
structure Opt where
  label : String
  weight : ℚ
  deriving Repr, DecidableEq

/-- A recorded spin (`{ name, phone, result, timestamp }`,
server.js lines 214-219). -/
structure SpinResult where
  name : String
  phone : String
  result : String
  timestamp : ℤ
  deriving Repr, DecidableEq

/-- A stored wheel (`wheels[id] = { id, options, results: [] }`,
server.js line 146). -/
structure Wheel where
  id : String
  options : List Opt
  results : List SpinResult
  deriving Repr, DecidableEq

/-- The in-memory store `const wheels = {}` (server.js line 22),
as an association list from id to wheel. -/
abbrev Registry := List (String × Wheel)

/-- Lookup of `wheels[id]`: the first entry with the given key. -/
def getWheel : Registry → String → Option Wheel
  | [], _ => none
  | (k, w) :: rest, id => if k = id then some w else getWheel rest id

/-- In-place mutation of the wheel stored under `id`
(`wheel.results.push(result)` mutates the record held in `wheels`);
entries under other keys are untouched. -/
def updateWheel : Registry → String → (Wheel → Wheel) → Registry
  | [], _, _ => []
  | (k, w) :: rest, id, f =>
    (if k = id then (k, f w) else (k, w)) :: updateWheel rest id f

/-- The error outcomes of the API routes. -/
inductive ApiError where
  /-- Not-found response 404 `{ error: 'Wheel not found' }`. -/
  | notFound
  /-- Validation failure 400 (missing/empty options array, bad option
  entry, or empty name/phone). -/
  | validationError
  /-- Server failure 500 `{ error: 'Could not allocate id' }`. -/
  | allocationExhausted
  /-- Models the JS `TypeError` that `chosen.label` would throw when a
  wheel has an empty options array (unreachable for wheels made by
  `createWheel`, which rejects empty option lists). -/
  | typeError
  deriving Repr, DecidableEq

/-- A submitted option entry, as decoded from JSON (see module comment). -/
structure RawOption where
  label : Option String
  weight : Option ℚ
  deriving Repr, DecidableEq

/-- Model of `String.prototype.trim`: strip leading and trailing whitespace.
(Implemented structurally over the character list so that concrete
instances evaluate; JS trims WhiteSpace and LineTerminator code points,
modelled here by `Char.isWhitespace`.) -/
def jsTrim (s : String) : String :=
  ⟨((s.data.dropWhile Char.isWhitespace).reverse.dropWhile Char.isWhitespace).reverse⟩

/-- The label coercion `typeof opt.label === 'string' ? opt.label.trim() : ''`
(server.js line 129); also used for spin's `name`/`phone`. -/
def trimOr (s : Option String) : String := jsTrim (s.getD "")

/-- Validation of one option entry (server.js lines 129-134): the label
must be non-empty after trimming and the weight a finite number `> 0`. -/
def sanitizeOption (o : RawOption) : Except ApiError Opt :=
  let label := trimOr o.label
  match o.weight with
  | none => .error .validationError
  | some w =>
    if label = "" ∨ w ≤ 0 then .error .validationError
    else .ok ⟨label, w⟩

/-- The validation loop over `payload.options` (server.js lines 127-135):
the first failing entry rejects the whole creation. -/
def sanitizeOptions : List RawOption → Except ApiError (List Opt)
  | [] => .ok []
  | o :: rest => do
    let s ← sanitizeOption o
    let t ← sanitizeOptions rest
    return s :: t

/-- The five id candidates `generateId()` would produce
(the loop `for (let i = 0; i < 5; i++)`, server.js line 138). -/
def allocAttempts (gen : ℕ → String) : List String :=
  (List.range 5).map gen

/-- The collision-retry loop (server.js lines 137-145): the loop leaves
`id` equal to the first candidate not already a key of `wheels` (it
breaks there), or to the 5th candidate when all five collide, in which
case the `if (wheels[id])` check reports the 500 error. -/
def allocateId (st : Registry) (gen : ℕ → String) : Except ApiError String :=
  match (allocAttempts gen).find? (fun c => (getWheel st c).isNone) with
  | some c => .ok c
  | none => .error .allocationExhausted

/-- Successful create response `{ id, link, resultsLink }`
(server.js lines 147-149). -/
structure CreatePayload where
  id : String
  link : String
  resultsLink : String
  deriving Repr, DecidableEq

/-- Route `POST /api/wheels` (server.js lines 107-152): validate the options
array, allocate an id, insert the new wheel with an empty results list. -/
def createWheel (st : Registry) (rawOpts : List RawOption) (gen : ℕ → String) :
    Registry × Except ApiError CreatePayload :=
  if rawOpts.length = 0 then (st, .error .validationError)
  else
    match sanitizeOptions rawOpts with
    | .error e => (st, .error e)
    | .ok options =>
      match allocateId st gen with
      | .error e => (st, .error e)
      | .ok id =>
        ((id, ⟨id, options, []⟩) :: st,
         .ok ⟨id, "/wheel.html?id=" ++ id, "/results.html?id=" ++ id⟩)

/-- Describe response `{ id, options }` (server.js line 161). -/
structure DescribePayload where
  id : String
  options : List Opt
  deriving Repr, DecidableEq

/-- Route `GET /api/wheel/:id` (server.js lines 154-162). Read-only. -/
def describeWheel (st : Registry) (id : String) : Except ApiError DescribePayload :=
  match getWheel st id with
  | none => .error .notFound
  | some wheel => .ok ⟨wheel.id, wheel.options⟩

/-- List-results response `{ id, results }` (server.js line 173). -/
structure ResultsPayload where
  id : String
  results : List SpinResult
  deriving Repr, DecidableEq

/-- Route `GET /api/wheel/:id/results` (server.js lines 164-174). Read-only;
the shallow copy `wheel.results.map(item => ({ ...item }))` copies each
record, which on immutable values is the identity map. -/
def listResults (st : Registry) (id : String) : Except ApiError ResultsPayload :=
  match getWheel st id with
  | none => .error .notFound
  | some wheel => .ok ⟨wheel.id, wheel.results.map (fun item => item)⟩

/-- The total `totalWeight = wheel.options.reduce((sum, opt) => sum + opt.weight, 0)`
(server.js line 203). -/
def totalWeight (opts : List Opt) : ℚ :=
  opts.foldl (fun sum opt => sum + opt.weight) 0

/-- The selection walk body (server.js lines 207-213): accumulate
`cumulative += opt.weight` and stop at the first option with
`r < cumulative`; `none` means the loop fell through without a match. -/
def chooseGo (r : ℚ) : ℚ → List Opt → Option Opt
  | _, [] => none
  | cumulative, opt :: rest =>
    let c := cumulative + opt.weight
    if r < c then some opt else chooseGo r c rest

/-- The full selection (server.js lines 205-213): `chosen` starts as
`wheel.options[0]` and the walk may override it, so a fall-through
leaves the first option selected. `none` only when `opts = []`. -/
def choose (opts : List Opt) (r : ℚ) : Option Opt :=
  match chooseGo r 0 opts with
  | some opt => some opt
  | none => opts.head?

/-- Spin response `{ result: chosen.label }` (server.js line 221). -/
structure SpinPayload where
  result : String
  deriving Repr, DecidableEq

/-- Route `POST /api/wheel/:id/spin` (server.js lines 176-223): look up the
wheel (404 first), validate trimmed name and phone, run the weighted
walk on `r = rand * totalWeight`, append the `SpinResult` and return
the chosen label. -/
def spin (st : Registry) (id : String) (rawName rawPhone : Option String)
    (rand : ℚ) (now : ℤ) : Registry × Except ApiError SpinPayload :=
  match getWheel st id with
  | none => (st, .error .notFound)
  | some wheel =>
    let name := trimOr rawName
    let phone := trimOr rawPhone
    if name = "" ∨ phone = "" then (st, .error .validationError)
    else
      let r := rand * totalWeight wheel.options
      match choose wheel.options r with
      | none => (st, .error .typeError)
      | some chosen =>
        let result : SpinResult := ⟨name, phone, chosen.label, now⟩
        (updateWheel st id (fun w => { w with results := w.results ++ [result] }),
         .ok ⟨chosen.label⟩)

/-! ### Auxiliary notions used by the specification statements -/

/-- A submitted entry that passes the per-option validation of
server.js line 131: trimmed label non-empty, weight a finite positive
number. -/
def validRaw (o : RawOption) : Prop :=
  trimOr o.label ≠ "" ∧ ∃ w, o.weight = some w ∧ 0 < w

/-- The stored option a valid submitted entry turns into: trimmed
label, coerced weight (the `getD 0` default is never used on valid
entries, whose weight is `some w`). -/
def coerced (o : RawOption) : Opt :=
  ⟨trimOr o.label, o.weight.getD 0⟩

/-- Cumulative weight of the first `i` options: the value of
`cumulative` when the walk reaches option `i`. -/
def sumTo (opts : List Opt) (i : ℕ) : ℚ :=
  ((opts.take i).map Opt.weight).sum

/-- The registry invariant: every stored wheel's `id` field equals the
key it is stored under (`wheels[id] = { id, ... }`). -/
def WellFormed (st : Registry) : Prop :=
  ∀ k w, getWheel st k = some w → w.id = k

/-! ### Lemmas about the registry -/

theorem getWheel_updateWheel_self (st : Registry) (a : String) (f : Wheel → Wheel) :
    getWheel (updateWheel st a f) a = (getWheel st a).map f := by
  induction st with
  | nil => simp [updateWheel, getWheel]
  | cons p rest ih =>
    obtain ⟨k, w⟩ := p
    simp only [updateWheel]
    by_cases hk : k = a
    · subst hk
      rw [if_pos rfl]
      simp [getWheel]
    · rw [if_neg hk]
      simpa [getWheel, hk] using ih

theorem getWheel_updateWheel_ne (st : Registry) (a : String) (f : Wheel → Wheel)
    (b : String) (h : b ≠ a) :
    getWheel (updateWheel st a f) b = getWheel st b := by
  induction st with
  | nil => simp [updateWheel, getWheel]
  | cons p rest ih =>
    obtain ⟨k, w⟩ := p
    simp only [updateWheel]
    by_cases hka : k = a
    · subst hka
      have hkb : ¬ k = b := fun hkb => h hkb.symm
      rw [if_pos rfl]
      simpa [getWheel, hkb] using ih
    · rw [if_neg hka]
      by_cases hkb : k = b
      · subst hkb
        simp [getWheel]
      · simpa [getWheel, hkb] using ih

/-! ### Lemmas about option validation -/

theorem sanitizeOption_ok {o : RawOption} (h : validRaw o) :
    sanitizeOption o = .ok (coerced o) := by
  obtain ⟨hl, w, hw, hpos⟩ := h
  simp [sanitizeOption, coerced, hw, hl, not_le.mpr hpos]

theorem sanitizeOption_error {o : RawOption} (h : ¬ validRaw o) :
    sanitizeOption o = .error .validationError := by
  rw [validRaw, not_and_or] at h
  rcases h with h | h
  · push_neg at h
    rcases ho : o.weight with _ | w
    · simp [sanitizeOption, ho]
    · simp [sanitizeOption, ho, h]
  · push_neg at h
    rcases ho : o.weight with _ | w
    · simp [sanitizeOption, ho]
    · have := h w ho
      simp [sanitizeOption, ho, this]

theorem sanitizeOptions_ok {l : List RawOption} (h : ∀ o ∈ l, validRaw o) :
    sanitizeOptions l = .ok (l.map coerced) := by
  induction l with
  | nil => rfl
  | cons o rest ih =>
    have ho := h o (List.mem_cons_self o rest)
    have hrest := ih (fun x hx => h x (List.mem_cons_of_mem o hx))
    simp only [sanitizeOptions, sanitizeOption_ok ho, hrest]
    rfl

theorem sanitizeOptions_error {l : List RawOption} (h : ∃ o ∈ l, ¬ validRaw o) :
    sanitizeOptions l = .error .validationError := by
  induction l with
  | nil => simp at h
  | cons o rest ih =>
    by_cases ho : validRaw o
    · have : ∃ x ∈ rest, ¬ validRaw x := by
        rcases h with ⟨x, hx, hbad⟩
        rcases List.mem_cons.mp hx with rfl | hx
        · exact absurd ho hbad
        · exact ⟨x, hx, hbad⟩
      simp only [sanitizeOptions, sanitizeOption_ok ho, ih this]
      rfl
    · simp only [sanitizeOptions, sanitizeOption_error ho]
      rfl

/-! ### Lemmas about the weighted-selection walk -/

theorem totalWeight_go (l : List Opt) :
    ∀ c : ℚ, l.foldl (fun sum opt => sum + opt.weight) c = c + (l.map Opt.weight).sum := by
  induction l with
  | nil => intro c; simp
  | cons o rest ih =>
    intro c
    simp [List.foldl_cons, ih (c + o.weight), add_assoc]

theorem totalWeight_eq_sum (l : List Opt) : totalWeight l = (l.map Opt.weight).sum := by
  simpa [totalWeight] using totalWeight_go l 0

theorem sumTo_nonneg {l : List Opt} (hw : ∀ o ∈ l, 0 ≤ o.weight) (i : ℕ) :
    0 ≤ sumTo l i := by
  refine List.sum_nonneg ?_
  intro x hx
  obtain ⟨o, ho, rfl⟩ := List.mem_map.mp hx
  exact hw o (List.mem_of_mem_take ho)

theorem chooseGo_mem {r : ℚ} {o : Opt} :
    ∀ {l : List Opt} {c : ℚ}, chooseGo r c l = some o → o ∈ l := by
  intro l
  induction l with
  | nil => intro c h; simp [chooseGo] at h
  | cons x rest ih =>
    intro c h
    simp only [chooseGo] at h
    by_cases hlt : r < c + x.weight
    · rw [if_pos hlt] at h
      exact (Option.some_inj.mp h) ▸ List.mem_cons_self x rest
    · rw [if_neg hlt] at h
      exact List.mem_cons_of_mem x (ih h)

theorem choose_mem {l : List Opt} {r : ℚ} {o : Opt} (h : choose l r = some o) : o ∈ l := by
  rw [choose] at h
  rcases hg : chooseGo r 0 l with _ | x
  · rw [hg] at h
    exact List.mem_of_mem_head? h
  · rw [hg] at h
    exact (Option.some_inj.mp h) ▸ chooseGo_mem hg

theorem choose_isSome {l : List Opt} (h : l ≠ []) (r : ℚ) : ∃ o, choose l r = some o := by
  rw [choose]
  rcases hg : chooseGo r 0 l with _ | x
  · cases l with
    | nil => exact absurd rfl h
    | cons a rest => exact ⟨a, rfl⟩
  · exact ⟨x, rfl⟩

theorem chooseGo_none {r : ℚ} :
    ∀ (l : List Opt) (c : ℚ), (∀ o ∈ l, 0 ≤ o.weight) →
      c + (l.map Opt.weight).sum ≤ r → chooseGo r c l = none := by
  intro l
  induction l with
  | nil => intro c _ _; rfl
  | cons o rest ih =>
    intro c hw hr
    have hsum : 0 ≤ (rest.map Opt.weight).sum := by
      refine List.sum_nonneg ?_
      intro x hx
      obtain ⟨y, hy, rfl⟩ := List.mem_map.mp hx
      exact hw y (List.mem_cons_of_mem o hy)
    have h1 : c + o.weight + (rest.map Opt.weight).sum ≤ r := by
      simpa [add_assoc] using hr
    have h2 : c + o.weight ≤ r := by linarith
    simp only [chooseGo]
    rw [if_neg (not_lt.mpr h2)]
    exact ih (c + o.weight) (fun x hx => hw x (List.mem_cons_of_mem o hx)) h1

theorem chooseGo_interval {r : ℚ} :
    ∀ (l : List Opt) (c : ℚ) (i : ℕ) (h : i < l.length),
      (∀ o ∈ l, 0 ≤ o.weight) →
      c + sumTo l i ≤ r → r < c + sumTo l i + (l.get ⟨i, h⟩).weight →
      chooseGo r c l = some (l.get ⟨i, h⟩) := by
  intro l
  induction l with
  | nil => intro c i h; simp at h
  | cons o rest ih =>
    intro c i h hw hlo hhi
    cases i with
    | zero =>
      simp only [sumTo, List.take_zero, List.map_nil, List.sum_nil, add_zero] at hlo hhi
      simp only [List.get] at hhi ⊢
      simp only [chooseGo]
      rw [if_pos hhi]
    | succ j =>
      have hj : j < rest.length := Nat.succ_lt_succ_iff.mp h
      have hsumTo : sumTo (o :: rest) (j + 1) = o.weight + sumTo rest j := by
        simp [sumTo, List.take_succ_cons]
      rw [hsumTo] at hlo hhi
      have hrest : ∀ x ∈ rest, 0 ≤ x.weight :=
        fun x hx => hw x (List.mem_cons_of_mem o hx)
      have hs : 0 ≤ sumTo rest j := sumTo_nonneg hrest j
      have h2 : c + o.weight ≤ r := by linarith
      have hget : (o :: rest).get ⟨j + 1, h⟩ = rest.get ⟨j, hj⟩ := rfl
      rw [hget] at hhi ⊢
      simp only [chooseGo]
      rw [if_neg (not_lt.mpr h2)]
      exact ih (c + o.weight) j hj hrest (by linarith) (by linarith)

theorem choose_interval {l : List Opt} {r : ℚ} {i : ℕ} (h : i < l.length)
    (hw : ∀ o ∈ l, 0 ≤ o.weight)
    (hlo : sumTo l i ≤ r) (hhi : r < sumTo l i + (l.get ⟨i, h⟩).weight) :
    choose l r = some (l.get ⟨i, h⟩) := by
  have hg := chooseGo_interval l 0 i h hw (by simpa using hlo) (by
    simpa [add_assoc] using hhi)
  simp [choose, hg]

theorem choose_head_of_fallthrough {l : List Opt} {r : ℚ}
    (hw : ∀ o ∈ l, 0 ≤ o.weight) (hr : totalWeight l ≤ r) :
    choose l r = l.head? := by
  have hg : chooseGo r 0 l = none :=
    chooseGo_none l 0 hw (by simpa [totalWeight_eq_sum] using hr)
  simp [choose, hg]

theorem sumTo_pred_add_last {l : List Opt} (h : l ≠ []) :
    sumTo l (l.length - 1) + (l.getLast h).weight = totalWeight l := by
  have hsplit : (l.map Opt.weight).sum =
      ((l.dropLast).map Opt.weight).sum + (l.getLast h).weight := by
    conv_lhs => rw [← List.dropLast_append_getLast h]
    simp
  rw [totalWeight_eq_sum, hsplit, List.dropLast_eq_take]
  rfl

/-! ### The claims -/

/-- C1: for an id present in the registry, list-results returns the
success payload `{id, results}` with the wheel's result records in
stored (insertion) order; for an absent id it returns the not-found
error. -/
theorem listResults_spec (st : Registry) (id : String) (hwf : WellFormed st) :
    (∀ w, getWheel st id = some w → listResults st id = .ok ⟨id, w.results⟩) ∧
    (getWheel st id = none → listResults st id = .error .notFound) := by
  constructor
  · intro w hw
    have hid : w.id = id := hwf id w hw
    simp [listResults, hw, hid]
  · intro h
    simp [listResults, h]

/-- Witness for C1 on a one-wheel registry. -/
theorem listResults_spec_witness :
    WellFormed [("w1", ⟨"w1", [⟨"A", 1⟩], [⟨"Ann", "555", "A", 7⟩]⟩)] ∧
    listResults [("w1", ⟨"w1", [⟨"A", 1⟩], [⟨"Ann", "555", "A", 7⟩]⟩)] "w1" =
      .ok ⟨"w1", [⟨"Ann", "555", "A", 7⟩]⟩ ∧
    listResults [("w1", ⟨"w1", [⟨"A", 1⟩], [⟨"Ann", "555", "A", 7⟩]⟩)] "zz" =
      .error .notFound := by
  have hwf : WellFormed [("w1", ⟨"w1", [⟨"A", 1⟩], [⟨"Ann", "555", "A", 7⟩]⟩)] := by
    intro k w h
    simp only [getWheel] at h
    by_cases hk : "w1" = k
    · rw [if_pos hk] at h
      cases h
      exact hk
    · rw [if_neg hk] at h
      cases h
  refine ⟨hwf, ?_, ?_⟩
  · exact (listResults_spec _ "w1" hwf).1 _ rfl
  · exact (listResults_spec _ "zz" hwf).2 rfl

/-- C2 counterexample: with options `[A: 1, B: 1]` and scaled draw
`r = 2 ≥ totalWeight`, the walk falls through and the code selects the
FIRST option `A`, not the last option `B` as the claim states. -/
theorem choose_fallthrough_counterexample :
    totalWeight [⟨"A", 1⟩, ⟨"B", 1⟩] ≤ 2 ∧
    choose [⟨"A", 1⟩, ⟨"B", 1⟩] 2 = some ⟨"A", 1⟩ ∧
    ([⟨"A", 1⟩, ⟨"B", 1⟩] : List Opt).getLast? = some ⟨"B", 1⟩ ∧
    choose [⟨"A", 1⟩, ⟨"B", 1⟩] 2 ≠ some ⟨"B", 1⟩ := by
  refine ⟨by norm_num [totalWeight], ?_, rfl, ?_⟩
  · norm_num [choose, chooseGo]
  · norm_num [choose, chooseGo]
    decide

/-- C2 (amended): if the scaled draw `r` is at least `totalWeight`
(so the walk falls through without a match), the chosen option is the
FIRST option of the sequence (`chosen` is initialised to
`wheel.options[0]` and never overridden); selection still always
returns one of the wheel's options and never fails when the option
sequence is non-empty. -/
theorem choose_fallthrough_first (opts : List Opt) (r : ℚ)
    (hw : ∀ o ∈ opts, 0 ≤ o.weight) (hr : totalWeight opts ≤ r) :
    choose opts r = opts.head? ∧
    (opts ≠ [] → ∃ o, o ∈ opts ∧ choose opts r = some o) := by
  refine ⟨choose_head_of_fallthrough hw hr, ?_⟩
  intro hne
  obtain ⟨o, ho⟩ := choose_isSome hne r
  exact ⟨o, choose_mem ho, ho⟩

/-- Witness for the amended C2 at `[A: 1, B: 1]`, `r = 2`. -/
theorem choose_fallthrough_first_witness :
    (∀ o ∈ ([⟨"A", 1⟩, ⟨"B", 1⟩] : List Opt), 0 ≤ o.weight) ∧
    totalWeight [⟨"A", 1⟩, ⟨"B", 1⟩] ≤ 2 ∧
    (choose [⟨"A", 1⟩, ⟨"B", 1⟩] 2 = ([⟨"A", 1⟩, ⟨"B", 1⟩] : List Opt).head? ∧
      (([⟨"A", 1⟩, ⟨"B", 1⟩] : List Opt) ≠ [] →
        ∃ o, o ∈ ([⟨"A", 1⟩, ⟨"B", 1⟩] : List Opt) ∧
          choose [⟨"A", 1⟩, ⟨"B", 1⟩] 2 = some o)) := by
  have hw : ∀ o ∈ ([⟨"A", 1⟩, ⟨"B", 1⟩] : List Opt), 0 ≤ o.weight := by
    intro o ho
    rcases List.mem_cons.mp ho with rfl | ho
    · norm_num
    · rcases List.mem_cons.mp ho with rfl | ho
      · norm_num
      · simp at ho
  have hr : totalWeight [⟨"A", 1⟩, ⟨"B", 1⟩] ≤ 2 := by norm_num [totalWeight]
  exact ⟨hw, hr, choose_fallthrough_first _ 2 hw hr⟩

/-- C3: with positive weights and `r` inside the total-weight range,
the walk returns exactly the option whose half-open cumulative interval
contains `r` (first-match-wins); a draw of `0` selects the first
option, and any `r` in `[totalWeight - lastWeight, totalWeight)`
selects the last option. -/
theorem choose_interval_spec (opts : List Opt) (hw : ∀ o ∈ opts, 0 < o.weight) :
    (∀ (r : ℚ) (i : ℕ) (h : i < opts.length),
        sumTo opts i ≤ r → r < sumTo opts i + (opts.get ⟨i, h⟩).weight →
        choose opts r = some (opts.get ⟨i, h⟩)) ∧
    (opts ≠ [] → choose opts 0 = opts.head?) ∧
    (∀ (r : ℚ) (h : opts ≠ []),
        totalWeight opts - (opts.getLast h).weight ≤ r → r < totalWeight opts →
        choose opts r = some (opts.getLast h)) := by
  have hw0 : ∀ o ∈ opts, 0 ≤ o.weight := fun o ho => le_of_lt (hw o ho)
  refine ⟨fun r i h hlo hhi => choose_interval h hw0 hlo hhi, ?_, ?_⟩
  · intro hne
    cases opts with
    | nil => exact absurd rfl hne
    | cons a rest =>
      have h0 : 0 < (a :: rest).length := Nat.succ_pos _
      have := choose_interval (l := a :: rest) (r := 0) (i := 0) h0 hw0
        (by simp [sumTo]) (by simpa [sumTo] using hw a (List.mem_cons_self a rest))
      simpa using this
  · intro r h hlo hhi
    have hlen : 0 < opts.length := List.length_pos.mpr h
    have hn : opts.length - 1 < opts.length := Nat.sub_lt hlen Nat.one_pos
    have hlast : opts.getLast h = opts.get ⟨opts.length - 1, hn⟩ :=
      List.getLast_eq_get opts h
    have hsum : sumTo opts (opts.length - 1) + (opts.getLast h).weight = totalWeight opts :=
      sumTo_pred_add_last h
    rw [hlast] at hsum hlo ⊢
    exact choose_interval hn hw0 (by linarith) (by linarith)

/-- Witness for C3 at `[A: 1, B: 3]`. -/
theorem choose_interval_spec_witness :
    (∀ o ∈ ([⟨"A", 1⟩, ⟨"B", 3⟩] : List Opt), 0 < o.weight) ∧
    ((∀ (r : ℚ) (i : ℕ) (h : i < ([⟨"A", 1⟩, ⟨"B", 3⟩] : List Opt).length),
        sumTo [⟨"A", 1⟩, ⟨"B", 3⟩] i ≤ r →
        r < sumTo [⟨"A", 1⟩, ⟨"B", 3⟩] i +
          (([⟨"A", 1⟩, ⟨"B", 3⟩] : List Opt).get ⟨i, h⟩).weight →
        choose [⟨"A", 1⟩, ⟨"B", 3⟩] r = some (([⟨"A", 1⟩, ⟨"B", 3⟩] : List Opt).get ⟨i, h⟩)) ∧
    (([⟨"A", 1⟩, ⟨"B", 3⟩] : List Opt) ≠ [] →
        choose [⟨"A", 1⟩, ⟨"B", 3⟩] 0 = ([⟨"A", 1⟩, ⟨"B", 3⟩] : List Opt).head?) ∧
    (∀ (r : ℚ) (h : ([⟨"A", 1⟩, ⟨"B", 3⟩] : List Opt) ≠ []),
        totalWeight [⟨"A", 1⟩, ⟨"B", 3⟩] -
          (([⟨"A", 1⟩, ⟨"B", 3⟩] : List Opt).getLast h).weight ≤ r →
        r < totalWeight [⟨"A", 1⟩, ⟨"B", 3⟩] →
        choose [⟨"A", 1⟩, ⟨"B", 3⟩] r =
          some (([⟨"A", 1⟩, ⟨"B", 3⟩] : List Opt).getLast h))) := by
  have hw : ∀ o ∈ ([⟨"A", 1⟩, ⟨"B", 3⟩] : List Opt), 0 < o.weight := by
    intro o ho
    rcases List.mem_cons.mp ho with rfl | ho
    · norm_num
    · rcases List.mem_cons.mp ho with rfl | ho
      · norm_num
      · simp at ho
  exact ⟨hw, choose_interval_spec _ hw⟩

/-- C4: if any submitted entry has an empty trimmed label or a weight
that does not coerce to a finite positive number, create fails with the
validation error and the registry is returned exactly as it was. -/
theorem createWheel_invalid (st : Registry) (rawOpts : List RawOption) (gen : ℕ → String)
    (h : ∃ o ∈ rawOpts, ¬ validRaw o) :
    createWheel st rawOpts gen = (st, .error .validationError) := by
  have hne : ¬ rawOpts.length = 0 := by
    obtain ⟨o, ho, _⟩ := h
    cases rawOpts with
    | nil => simp at ho
    | cons a rest => simp
  simp only [createWheel]
  rw [if_neg hne, sanitizeOptions_error h]

/-- Witness for C4: an entry whose label trims to empty. -/
theorem createWheel_invalid_witness :
    (∃ o ∈ ([⟨some " ", some 1⟩] : List RawOption), ¬ validRaw o) ∧
    createWheel [] [⟨some " ", some 1⟩] (fun _ => "w1") =
      ([], .error .validationError) := by
  have h : ∃ o ∈ ([⟨some " ", some 1⟩] : List RawOption), ¬ validRaw o := by
    refine ⟨⟨some " ", some 1⟩, List.mem_cons_self _ _, ?_⟩
    intro hv
    exact hv.1 rfl
  exact ⟨h, createWheel_invalid [] _ _ h⟩

theorem allocateId_fresh {st : Registry} {gen : ℕ → String} {i : String}
    (ha : allocateId st gen = .ok i) : getWheel st i = none := by
  simp only [allocateId] at ha
  rcases hf : (allocAttempts gen).find? (fun c => (getWheel st c).isNone) with _ | c
  · rw [hf] at ha
    cases ha
  · rw [hf] at ha
    cases ha
    have := List.find?_some hf
    simpa [Option.isNone_iff_eq_none] using this

/-- C5: a successful create uses an id that was not previously a key,
stores the wheel under it with an empty results list and the submitted
options trimmed, in submission order, and an immediate describe on the
new registry returns exactly those options. -/
theorem createWheel_valid (st : Registry) (rawOpts : List RawOption) (gen : ℕ → String)
    (i : String) (hv : ∀ o ∈ rawOpts, validRaw o) (hne : rawOpts ≠ [])
    (ha : allocateId st gen = .ok i) :
    getWheel st i = none ∧
    createWheel st rawOpts gen =
      ((i, ⟨i, rawOpts.map coerced, []⟩) :: st,
       .ok ⟨i, "/wheel.html?id=" ++ i, "/results.html?id=" ++ i⟩) ∧
    describeWheel ((i, ⟨i, rawOpts.map coerced, []⟩) :: st) i =
      .ok ⟨i, rawOpts.map coerced⟩ ∧
    (∀ o ∈ rawOpts, (coerced o).label = jsTrim (o.label.getD "") ∧
      o.weight = some (coerced o).weight) := by
  have hne0 : ¬ rawOpts.length = 0 := by
    cases rawOpts with
    | nil => exact absurd rfl hne
    | cons a rest => simp
  refine ⟨allocateId_fresh ha, ?_, ?_, ?_⟩
  · simp only [createWheel]
    rw [if_neg hne0]
    simp only [sanitizeOptions_ok hv, ha]
  · simp [describeWheel, getWheel]
  · intro o ho
    refine ⟨rfl, ?_⟩
    obtain ⟨-, w, hw, -⟩ := hv o ho
    simp [coerced, hw]

/-- Witness for C5: create on the empty registry with one option
labelled `" A "`, weight `1`; the stored option is `⟨"A", 1⟩`. -/
theorem createWheel_valid_witness :
    (∀ o ∈ ([⟨some " A ", some 1⟩] : List RawOption), validRaw o) ∧
    ([⟨some " A ", some 1⟩] : List RawOption) ≠ [] ∧
    allocateId [] (fun _ => "w1") = .ok "w1" ∧
    ([⟨some " A ", some 1⟩] : List RawOption).map coerced = [⟨"A", 1⟩] ∧
    (getWheel [] "w1" = none ∧
      createWheel [] [⟨some " A ", some 1⟩] (fun _ => "w1") =
        (("w1", ⟨"w1", ([⟨some " A ", some 1⟩] : List RawOption).map coerced, []⟩) :: [],
         .ok ⟨"w1", "/wheel.html?id=" ++ "w1", "/results.html?id=" ++ "w1"⟩) ∧
      describeWheel (("w1", ⟨"w1", ([⟨some " A ", some 1⟩] : List RawOption).map coerced, []⟩) :: []) "w1" =
        .ok ⟨"w1", ([⟨some " A ", some 1⟩] : List RawOption).map coerced⟩ ∧
      (∀ o ∈ ([⟨some " A ", some 1⟩] : List RawOption),
        (coerced o).label = jsTrim (o.label.getD "") ∧
        o.weight = some (coerced o).weight)) := by
  have hv : ∀ o ∈ ([⟨some " A ", some 1⟩] : List RawOption), validRaw o := by
    intro o ho
    rcases List.mem_cons.mp ho with rfl | ho
    · exact ⟨by decide, 1, rfl, by norm_num⟩
    · simp at ho
  refine ⟨hv, by simp, rfl, rfl, ?_⟩
  exact createWheel_valid [] _ _ "w1" hv (by simp) rfl

/-- C6: spin on an unknown id fails with the not-found error and the
registry (hence every result sequence) is returned unchanged; spin on
an existing wheel with a name or phone that is empty after trimming
(or not a string) fails with the validation error, again returning the
registry unchanged. -/
theorem spin_errors (st : Registry) (id : String) (n p : Option String)
    (rand : ℚ) (now : ℤ) :
    (getWheel st id = none → spin st id n p rand now = (st, .error .notFound)) ∧
    (∀ w, getWheel st id = some w → (trimOr n = "" ∨ trimOr p = "") →
      spin st id n p rand now = (st, .error .validationError)) := by
  constructor
  · intro h
    simp [spin, h]
  · intro w hw hbad
    simp only [spin, hw]
    rw [if_pos hbad]

/-- Witness for C6: unknown id, then an existing wheel with a
whitespace-only name. -/
theorem spin_errors_witness :
    (getWheel [] "zz" = none ∧
      spin [] "zz" (some "Ann") (some "555") 0 7 = ([], .error .notFound)) ∧
    (getWheel [("w1", ⟨"w1", [⟨"A", 1⟩], []⟩)] "w1" = some ⟨"w1", [⟨"A", 1⟩], []⟩ ∧
      (trimOr (some "  ") = "" ∨ trimOr (some "555") = "") ∧
      spin [("w1", ⟨"w1", [⟨"A", 1⟩], []⟩)] "w1" (some "  ") (some "555") 0 7 =
        ([("w1", ⟨"w1", [⟨"A", 1⟩], []⟩)], .error .validationError)) := by
  refine ⟨⟨rfl, (spin_errors [] "zz" _ _ 0 7).1 rfl⟩, rfl, Or.inl (by decide), ?_⟩
  exact (spin_errors _ "w1" _ _ 0 7).2 _ rfl (Or.inl (by decide))

/-- C7: a successful spin appends exactly one `SpinResult` to the
target wheel: its name and phone are the trimmed inputs, its result is
the label of one of the wheel's stored options (the chosen one, which
is also the response payload), and its timestamp is the spin time; no
other wheel's entry changes. -/
theorem spin_success (st : Registry) (id : String) (n p : Option String)
    (rand : ℚ) (now : ℤ) (w : Wheel) (hw : getWheel st id = some w)
    (hn : trimOr n ≠ "") (hp : trimOr p ≠ "") (hopts : w.options ≠ []) :
    ∃ chosen, chosen ∈ w.options ∧
      (spin st id n p rand now).2 = .ok ⟨chosen.label⟩ ∧
      (spin st id n p rand now).1 =
        updateWheel st id
          (fun x => { x with results := x.results ++ [⟨trimOr n, trimOr p, chosen.label, now⟩] }) ∧
      getWheel (spin st id n p rand now).1 id =
        some { w with results := w.results ++ [⟨trimOr n, trimOr p, chosen.label, now⟩] } ∧
      (∀ k, k ≠ id → getWheel (spin st id n p rand now).1 k = getWheel st k) := by
  have hcond : ¬ (trimOr n = "" ∨ trimOr p = "") := by
    rintro (hc | hc)
    · exact hn hc
    · exact hp hc
  obtain ⟨chosen, hc⟩ := choose_isSome hopts (rand * totalWeight w.options)
  have hspin : spin st id n p rand now =
      (updateWheel st id
        (fun x => { x with results := x.results ++ [⟨trimOr n, trimOr p, chosen.label, now⟩] }),
       .ok ⟨chosen.label⟩) := by
    simp only [spin, hw]
    rw [if_neg hcond]
    simp only [hc]
  refine ⟨chosen, choose_mem hc, ?_, ?_, ?_, ?_⟩
  · rw [hspin]
  · rw [hspin]
  · rw [hspin, getWheel_updateWheel_self, hw]
    rfl
  · intro k hk
    rw [hspin]
    exact getWheel_updateWheel_ne st id _ k hk

/-- Witness for C7: one spin on a one-option wheel. -/
theorem spin_success_witness :
    getWheel [("w1", ⟨"w1", [⟨"A", 1⟩], []⟩)] "w1" = some ⟨"w1", [⟨"A", 1⟩], []⟩ ∧
    trimOr (some " Ann ") ≠ "" ∧ trimOr (some "555") ≠ "" ∧
    (⟨"w1", [⟨"A", 1⟩], []⟩ : Wheel).options ≠ [] ∧
    (∃ chosen, chosen ∈ (⟨"w1", [⟨"A", 1⟩], []⟩ : Wheel).options ∧
      (spin [("w1", ⟨"w1", [⟨"A", 1⟩], []⟩)] "w1" (some " Ann ") (some "555") 0 7).2 =
        .ok ⟨chosen.label⟩ ∧
      (spin [("w1", ⟨"w1", [⟨"A", 1⟩], []⟩)] "w1" (some " Ann ") (some "555") 0 7).1 =
        updateWheel [("w1", ⟨"w1", [⟨"A", 1⟩], []⟩)] "w1"
          (fun x => { x with results := x.results ++
            [⟨trimOr (some " Ann "), trimOr (some "555"), chosen.label, 7⟩] }) ∧
      getWheel (spin [("w1", ⟨"w1", [⟨"A", 1⟩], []⟩)] "w1" (some " Ann ") (some "555") 0 7).1 "w1" =
        some { (⟨"w1", [⟨"A", 1⟩], []⟩ : Wheel) with results :=
          (⟨"w1", [⟨"A", 1⟩], []⟩ : Wheel).results ++
            [⟨trimOr (some " Ann "), trimOr (some "555"), chosen.label, 7⟩] } ∧
      (∀ k, k ≠ "w1" →
        getWheel (spin [("w1", ⟨"w1", [⟨"A", 1⟩], []⟩)] "w1" (some " Ann ") (some "555") 0 7).1 k =
          getWheel [("w1", ⟨"w1", [⟨"A", 1⟩], []⟩)] k)) := by
  refine ⟨rfl, by decide, by decide, by decide, ?_⟩
  exact spin_success _ "w1" _ _ 0 7 _ rfl (by decide) (by decide) (by decide)

theorem find?_eq_some_of_first {α : Type} (p : α → Bool) :
    ∀ (l : List α) (j : ℕ) (hj : j < l.length),
      p (l.get ⟨j, hj⟩) = true →
      (∀ (k : ℕ) (hk : k < j), p (l.get ⟨k, Nat.lt_trans hk hj⟩) = false) →
      l.find? p = some (l.get ⟨j, hj⟩) := by
  intro l
  induction l with
  | nil => intro j hj; exact absurd hj (Nat.not_lt_zero j)
  | cons x rest ih =>
    intro j hj hp hbef
    cases j with
    | zero =>
      exact List.find?_cons_of_pos _ hp
    | succ jj =>
      have hx : p x = false := hbef 0 (Nat.succ_pos jj)
      rw [List.find?_cons_of_neg _ (by simp [hx])]
      exact ih jj (Nat.succ_lt_succ_iff.mp hj) hp
        (fun k hk => hbef (k + 1) (Nat.succ_lt_succ hk))

/-- C8: id allocation makes at most 5 attempts; the first attempt that
produces an id not already a key of the registry is the one used; if
all 5 attempts collide, create (on otherwise valid input) fails with
the allocation-exhausted error and the registry is returned
unchanged. -/
theorem allocateId_spec (st : Registry) (gen : ℕ → String) (rawOpts : List RawOption) :
    (allocAttempts gen).length = 5 ∧
    ((∃ j, j < 5 ∧ getWheel st (gen j) = none) →
      ∃ c, allocateId st gen = .ok c ∧ getWheel st c = none ∧ ∃ j, j < 5 ∧ c = gen j) ∧
    (∀ j, j < 5 → getWheel st (gen j) = none →
      (∀ k, k < j → getWheel st (gen k) ≠ none) →
      allocateId st gen = .ok (gen j)) ∧
    ((∀ j, j < 5 → (getWheel st (gen j)).isSome) →
      (∀ o ∈ rawOpts, validRaw o) → rawOpts ≠ [] →
      createWheel st rawOpts gen = (st, .error .allocationExhausted)) := by
  refine ⟨by simp [allocAttempts], ?_, ?_, ?_⟩
  · rintro ⟨j, hj, hfree⟩
    have hmem : gen j ∈ allocAttempts gen :=
      List.mem_map.mpr ⟨j, List.mem_range.mpr hj, rfl⟩
    have hsat : ((allocAttempts gen).find? (fun c => (getWheel st c).isNone)).isSome :=
      List.find?_isSome.mpr ⟨gen j, hmem, by simp [hfree]⟩
    obtain ⟨c, hc⟩ := Option.isSome_iff_exists.mp hsat
    refine ⟨c, ?_, ?_, ?_⟩
    · simp [allocateId, hc]
    · have := List.find?_some hc
      simpa [Option.isNone_iff_eq_none] using this
    · have := List.mem_of_find?_eq_some hc
      obtain ⟨j', hj', rfl⟩ := List.mem_map.mp this
      exact ⟨j', List.mem_range.mp hj', rfl⟩
  · intro j hj hfree hbef
    have hjlen : j < (allocAttempts gen).length := by
      simpa [allocAttempts] using hj
    have hget : (allocAttempts gen).get ⟨j, hjlen⟩ = gen j := by
      simp [allocAttempts]
    have hp : (fun c => (getWheel st c).isNone) ((allocAttempts gen).get ⟨j, hjlen⟩) = true := by
      rw [hget]
      simp [hfree]
    have hbef2 : ∀ (k : ℕ) (hk : k < j),
        (fun c => (getWheel st c).isNone)
          ((allocAttempts gen).get ⟨k, Nat.lt_trans hk hjlen⟩) = false := by
      intro k hk
      have hgetk : (allocAttempts gen).get ⟨k, Nat.lt_trans hk hjlen⟩ = gen k := by
        simp [allocAttempts]
      rw [hgetk]
      rcases h : getWheel st (gen k) with _ | w
      · exact absurd h (hbef k hk)
      · simp [h]
    have hfind := find?_eq_some_of_first (fun c => (getWheel st c).isNone)
      (allocAttempts gen) j hjlen hp hbef2
    rw [hget] at hfind
    simp [allocateId, hfind]
  · intro hcol hv hne
    have hne0 : ¬ rawOpts.length = 0 := by
      cases rawOpts with
      | nil => exact absurd rfl hne
      | cons a rest => simp
    have hnone : (allocAttempts gen).find? (fun c => (getWheel st c).isNone) = none := by
      refine List.find?_eq_none.mpr ?_
      intro x hx
      obtain ⟨j, hjm, rfl⟩ := List.mem_map.mp hx
      obtain ⟨w, hw⟩ := Option.isSome_iff_exists.mp (hcol j (List.mem_range.mp hjm))
      simp [hw]
    simp only [createWheel]
    rw [if_neg hne0]
    simp only [sanitizeOptions_ok hv, allocateId, hnone]

/-- Witness for C8: on the empty registry some attempt is fresh; on a
registry already holding the only candidate `"w1"`, all 5 attempts
collide and create fails with the allocation error. -/
theorem allocateId_spec_witness :
    (allocAttempts (fun _ => "w1")).length = 5 ∧
    (∃ c, allocateId [] (fun _ => "w1") = .ok c ∧ getWheel [] c = none ∧
      ∃ j, j < 5 ∧ c = (fun _ : ℕ => "w1") j) ∧
    allocateId [] (fun _ => "w1") = .ok ((fun _ : ℕ => "w1") 0) ∧
    createWheel [("w1", ⟨"w1", [⟨"A", 1⟩], []⟩)] [⟨some "A", some 1⟩] (fun _ => "w1") =
      ([("w1", ⟨"w1", [⟨"A", 1⟩], []⟩)], .error .allocationExhausted) := by
  have hv : ∀ o ∈ ([⟨some "A", some 1⟩] : List RawOption), validRaw o := by
    intro o ho
    rcases List.mem_cons.mp ho with rfl | ho
    · exact ⟨by decide, 1, rfl, by norm_num⟩
    · simp at ho
  refine ⟨(allocateId_spec [] (fun _ => "w1") []).1, ?_, ?_, ?_⟩
  · exact (allocateId_spec [] (fun _ => "w1") []).2.1 ⟨0, by norm_num, rfl⟩
  · exact (allocateId_spec [] (fun _ => "w1") []).2.2.1 0 (by norm_num) rfl
      (fun k hk => absurd hk (Nat.not_lt_zero k))
  · exact (allocateId_spec [("w1", ⟨"w1", [⟨"A", 1⟩], []⟩)] (fun _ => "w1") _).2.2.2
      (fun j hj => rfl) hv (by simp)

/-- C9: the implicit invariant that every wheel is stored under its own
id — true of the initial empty registry and preserved by the two
mutating operations, create and spin (describe and list-results take
the registry immutably and return no registry, so they cannot disturb
it). -/
theorem registry_wellFormed :
    WellFormed ([] : Registry) ∧
    (∀ (st : Registry) (rawOpts : List RawOption) (gen : ℕ → String),
      WellFormed st → WellFormed (createWheel st rawOpts gen).1) ∧
    (∀ (st : Registry) (id : String) (n p : Option String) (rand : ℚ) (now : ℤ),
      WellFormed st → WellFormed (spin st id n p rand now).1) := by
  refine ⟨?_, ?_, ?_⟩
  · intro k w h
    simp [getWheel] at h
  · intro st rawOpts gen hwf
    simp only [createWheel]
    split
    · exact hwf
    · split
      · exact hwf
      · split
        · exact hwf
        · rename_i opts i heq
          intro k w h
          simp only [getWheel] at h
          by_cases hik : i = k
          · rw [if_pos hik] at h
            cases h
            exact hik
          · rw [if_neg hik] at h
            exact hwf k w h
  · intro st id n p rand now hwf
    simp only [spin]
    split
    · exact hwf
    · rename_i wheel hwheel
      split
      · exact hwf
      · split
        · exact hwf
        · rename_i chosen hchosen
          intro k w h
          by_cases hk : k = id
          · subst hk
            rw [getWheel_updateWheel_self] at h
            rcases hg : getWheel st k with _ | w0
            · rw [hg] at h
              cases h
            · rw [hg] at h
              cases h
              exact hwf k w0 hg
          · rw [getWheel_updateWheel_ne st id _ k hk] at h
            exact hwf k w h

/-- Witness for C9: the invariant transported across a concrete create
and a concrete spin. -/
theorem registry_wellFormed_witness :
    WellFormed ([] : Registry) ∧
    WellFormed (createWheel [] [⟨some "A", some 1⟩] (fun _ => "w1")).1 ∧
    WellFormed (spin [("w1", ⟨"w1", [⟨"A", 1⟩], []⟩)] "w1" (some "Ann") (some "555") 0 7).1 := by
  refine ⟨registry_wellFormed.1, ?_, ?_⟩
  · exact registry_wellFormed.2.1 [] _ _ registry_wellFormed.1
  · refine registry_wellFormed.2.2 _ "w1" _ _ 0 7 ?_
    intro k w h
    simp only [getWheel] at h
    by_cases hk : "w1" = k
    · rw [if_pos hk] at h
      cases h
      exact hk
    · rw [if_neg hk] at h
      cases h

/-- C10: create accepts duplicate trimmed labels — the two submitted
options `"A"` and `" A "` both trim to label `"A"` and are both
stored, so a recorded chosen label need not identify a unique option. -/
theorem createWheel_duplicate_labels :
    createWheel [] [⟨some "A", some 1⟩, ⟨some " A ", some 2⟩] (fun _ => "w1") =
      ([("w1", ⟨"w1", [⟨"A", 1⟩, ⟨"A", 2⟩], []⟩)],
       .ok ⟨"w1", "/wheel.html?id=w1", "/results.html?id=w1"⟩) ∧
    (⟨"A", 1⟩ : Opt).label = (⟨"A", 2⟩ : Opt).label ∧
    (⟨"A", 1⟩ : Opt) ≠ (⟨"A", 2⟩ : Opt) :=
  ⟨rfl, rfl, by decide⟩

end WheelApp
